import Mathlib

/-!
Shallow embedding of worker/management/commands/start_worker.py.

The engine issues one HTTP POST per work item with bounded retry
(process_account), fans batches out across pools (process_batch_external,
use_api), tracks successes/failures in a completion loop with periodic
checkpointing (save_progress / load_progress), and runs one retry pass over
failed items (retry_no_response_accounts).

Network behaviour is modelled as a function from attempt index to an
AttemptOutcome; concurrency collapses to explicit result sequences, with
completion-order nondeterminism represented by quantifying over permutations
of the submitted results where it matters.
-/

namespace StartWorker

/-! Module-level constants from the top of start_worker.py. -/

def MAX_RETRIES : Nat := 2

def BATCH_SIZE : Nat := 500

def THREAD_WORKERS : Nat := 20

def PROCESS_WORKERS : Nat := 8

def RETRY_DELAY : Nat := 1

def SAVE_INTERVAL : Nat := 1000

/-- timedelta(minutes=10) used in auto_login, in seconds. -/
def OTP_WAIT_LIMIT_SECONDS : Nat := 10 * 60

/-- One fragment of a decoded response body. The output stage iterates
`for resp in r["response"]`, so a successful body is a sequence of fragments,
each opaque to the engine; we model a fragment as an opaque string. -/
abbrev RespFragment := String

/-- A decoded JSON body as the engine consumes it: a sequence of fragments. -/
abbrev Json := List RespFragment

/-- The dict `{"username": user, "response": ...}` returned by process_account:
response = none models `"response": None` (permanent failure). -/
structure CallResult where
  username : String
  response : Option Json
  deriving DecidableEq

/-- Observable outcome of one `requests.post` attempt: either a response with a
status code and a body (decodedBody = none when the body is not decodable as
JSON; requests raises requests.exceptions.JSONDecodeError there, a subclass of
RequestException, so it is caught like any transport error), or a
transport-level error (requests.RequestException). -/
inductive AttemptOutcome where
  | response (statusCode : Nat) (decodedBody : Option Json)
  | transportError
  deriving DecidableEq

/-- The payload an attempt yields inside the loop body of process_account:
some body exactly when status_code == 200 and response.json() succeeds
(the early `return`); otherwise the attempt falls through to the next one. -/
def attemptResult : AttemptOutcome → Option Json
  | .response 200 (some body) => some body
  | _ => none

/-- The retry loop `for attempt in range(MAX_RETRIES)` of process_account,
starting at attempt index k with n attempts remaining. Also counts the number
of attempts actually performed (second component). -/
def processAccountFrom (user : String) (attempts : Nat → AttemptOutcome) :
    Nat → Nat → CallResult × Nat
  | _, 0 => (⟨user, none⟩, 0)
  | k, n + 1 =>
    match attemptResult (attempts k) with
    | some body => (⟨user, some body⟩, 1)
    | none =>
      let r := processAccountFrom user attempts (k + 1) n
      (r.1, r.2 + 1)

/-- process_account(user, cookies): runs up to MAX_RETRIES attempts; on the
first 200-status decodable response returns its body, otherwise returns the
absent-payload sentinel `{"username": user, "response": None}`. -/
def process_account (user : String) (attempts : Nat → AttemptOutcome) : CallResult :=
  (processAccountFrom user attempts 0 MAX_RETRIES).1

/-- Number of attempts process_account performs for the given network
behaviour. -/
def attemptsMade (user : String) (attempts : Nat → AttemptOutcome) : Nat :=
  (processAccountFrom user attempts 0 MAX_RETRIES).2

/-- Characterisation of the retry loop: starting at index k with n attempts
left, either every attempt in the window fails and the loop returns the
absent-payload sentinel after exactly n attempts, or some first attempt j
succeeds with body and the loop returns that body after j + 1 attempts. -/
theorem processAccountFrom_spec (user : String) (attempts : Nat → AttemptOutcome) :
    ∀ n k,
      ((∀ j, j < n → attemptResult (attempts (k + j)) = none) ∧
        processAccountFrom user attempts k n = (⟨user, none⟩, n)) ∨
      (∃ j, j < n ∧ ∃ body,
        attemptResult (attempts (k + j)) = some body ∧
        (∀ i, i < j → attemptResult (attempts (k + i)) = none) ∧
        processAccountFrom user attempts k n = (⟨user, some body⟩, j + 1)) := by
  intro n
  induction n with
  | zero =>
    intro k
    left
    exact ⟨fun j hj => absurd hj (Nat.not_lt_zero j), rfl⟩
  | succ n ih =>
    intro k
    cases h : attemptResult (attempts k) with
    | some body =>
      right
      refine ⟨0, Nat.succ_pos n, body, ?_, ?_, ?_⟩
      · simpa using h
      · intro i hi; exact absurd hi (Nat.not_lt_zero i)
      · simp only [processAccountFrom, h]
    | none =>
      rcases ih (k + 1) with ⟨hall, heq⟩ | ⟨j, hj, body, hsucc, hbefore, heq⟩
      · left
        constructor
        · intro j hj
          cases j with
          | zero => simpa using h
          | succ j =>
            have : k + (j + 1) = (k + 1) + j := by omega
            rw [this]
            exact hall j (by omega)
        · simp only [processAccountFrom, h, heq]
      · right
        refine ⟨j + 1, by omega, body, ?_, ?_, ?_⟩
        · have : k + (j + 1) = (k + 1) + j := by omega
          rw [this]; exact hsucc
        · intro i hi
          cases i with
          | zero => simpa using h
          | succ i =>
            have : k + (i + 1) = (k + 1) + i := by omega
            rw [this]
            exact hbefore i (by omega)
        · simp only [processAccountFrom, h, heq]

/-- The username field of the retry loop result is always the input user. -/
theorem processAccountFrom_username (user : String) (attempts : Nat → AttemptOutcome)
    (n k : Nat) : (processAccountFrom user attempts k n).1.username = user := by
  rcases processAccountFrom_spec user attempts n k with ⟨_, heq⟩ | ⟨_, _, _, _, _, heq⟩ <;>
    rw [heq]

/-! ### Thread-level batch runner and retry pass -/

/-- process_batch_external(batch, cookies): one process_account call per user of
the batch, submitted in batch order. The network behaviour of each user is
given by net. as_completed returns the results in completion order, i.e. some
permutation of this list; theorems that depend on it quantify over
permutations. -/
def process_batch_external (batch : List String)
    (net : String → Nat → AttemptOutcome) : List CallResult :=
  batch.map (fun user => process_account user (net user))

/-- retry_no_response_accounts(cookies): one process_account call per failed
user. The guard `if response:` on each future result is always true because
process_account always returns a (truthy, non-empty) dict, so every retry
result is appended to retry_responses. -/
def retry_no_response_accounts (no_response_accounts : List String)
    (net : String → Nat → AttemptOutcome) : List CallResult :=
  no_response_accounts.map (fun user => process_account user (net user))

/-! ### The dispatcher completion loop of use_api -/

/-- Mutable state of the `for future in as_completed(futures)` loop in use_api:
the success accumulator all_responses, the failed-item list
self.no_response_accounts, and the sequence of arguments passed to
save_progress (one entry per checkpoint call, recording the accumulator at
that moment). -/
structure LoopState where
  all_responses : List CallResult
  no_response_accounts : List String
  saves : List (List CallResult)
  deriving DecidableEq

/-- The body of the completion loop for one consumed response: a None payload
is appended to no_response_accounts, otherwise the response is appended to
all_responses; then `if len(all_responses) % SAVE_INTERVAL == 0:
self.save_progress(all_responses)` runs — note this check runs after every
consumed response, success or failure. -/
def consumeOne (s : LoopState) (r : CallResult) : LoopState :=
  let s1 :=
    if r.response.isNone then
      { s with no_response_accounts := s.no_response_accounts ++ [r.username] }
    else
      { s with all_responses := s.all_responses ++ [r] }
  if s1.all_responses.length % SAVE_INTERVAL = 0 then
    { s1 with saves := s1.saves ++ [s1.all_responses] }
  else
    s1

/-- The completion loop of use_api over the sequence of consumed CallResults
(batch results flattened in completion order), starting from empty state. -/
def completionLoop (results : List CallResult) : LoopState :=
  results.foldl consumeOne ⟨[], [], []⟩

/-- The accumulator handed to output serialization: all_responses after the
main pass, extended with the retry-pass results when no_response_accounts is
non-empty (`if self.no_response_accounts: ... all_responses.extend(...)`). -/
def finalAccumulator (consumed : List CallResult)
    (retryNet : String → Nat → AttemptOutcome) : List CallResult :=
  let state := completionLoop consumed
  if state.no_response_accounts.isEmpty then
    state.all_responses
  else
    state.all_responses ++
      retry_no_response_accounts state.no_response_accounts retryNet

/-- Python truthiness of an r["response"] value: None is falsy, and so is an
empty decoded body. -/
def pyTruthy : Option Json → Bool
  | none => false
  | some body => !body.isEmpty

/-- The rows fed to pd.json_normalize: one (username, fragment) pair per
fragment of each truthy response, via the comprehension
`[... for r in all_responses if r["response"] for resp in r["response"]]`. -/
def outputRows (all_responses : List CallResult) : List (String × RespFragment) :=
  (all_responses.filter (fun r => pyTruthy r.response)).flatMap
    (fun r => (r.response.getD []).map (fun resp => (r.username, resp)))

/-! ### Checkpoint persistence -/

/-- The content save_progress writes: json.dump(successful_users[-100:], file),
i.e. the most recent 100 entries (all of them when fewer). -/
def save_progress (successful_users : List CallResult) : List CallResult :=
  successful_users.drop (successful_users.length - 100)

/-- Writing the progress file with open(PROGRESS_FILE, "w"): a pure overwrite,
the previous content (none = no file) is discarded entirely. -/
def writeProgressFile (content : List CallResult)
    (_previousFile : Option (List CallResult)) : Option (List CallResult) :=
  some content

/-- State of the checkpoint file as load_progress finds it: absent, or present
with json.load either succeeding (some data) or the content not parseable as
JSON (none). -/
inductive ProgressFileState where
  | absent
  | present (parsed : Option (List CallResult))
  deriving DecidableEq

/-- load_progress(): returns [] when os.path.exists is false; otherwise calls
json.load, which returns the parsed data or raises json.JSONDecodeError —
there is no try/except here, so a decode failure propagates (Except.error). -/
def load_progress : ProgressFileState → Except Unit (List CallResult)
  | .absent => .ok []
  | .present none => .error ()
  | .present (some data) => .ok data

/-! ### Resume truncation and batching in use_api -/

/-- The resume step of use_api: when progress_data is non-empty, takes
last_user = progress_data[-1]["username"], start_index =
user_list.index(last_user) + 1 (list.index raises ValueError when absent:
none), and truncates to user_list[start_index:]. -/
def resumeTruncate (user_list : List String)
    (progress_data : List CallResult) : Option (List String) :=
  match progress_data.getLast? with
  | none => some user_list
  | some last =>
    match user_list.indexOf? last.username with
    | none => none
    | some i => some (user_list.drop (i + 1))

/-- The batch partition of use_api with batch size B:
`[user_list[i:i + B] for i in range(0, len(user_list), B)]`.
range(0, n, B) has ceil(n / B) elements 0, B, 2B, ... -/
def batchesWith (B : Nat) (user_list : List α) : List (List α) :=
  (List.range' 0 ((user_list.length + B - 1) / B) B).map
    (fun i => (user_list.drop i).take B)

/-- The batch partition as the code runs it, at the configured BATCH_SIZE. -/
def batches (user_list : List α) : List (List α) :=
  batchesWith BATCH_SIZE user_list

/-! ### Login and dispatch guard -/

/-- A session credential: the dict of cookie name/value pairs. -/
abbrev Cookies := List (String × String)

/-- Python truthiness of self.session_cookies: None and the empty dict are
falsy. -/
def cookiesTruthy : Option Cookies → Bool
  | none => false
  | some cs => !cs.isEmpty

/-- The OTP wait loop of auto_login, fuel-indexed. poll k is the OTP code
get_otp_from_telegram returns at iteration k (none when no code yet);
elapsedSeconds k is datetime.now() - login_time at iteration k in seconds.
Returns none when the fuel runs out with the loop still running, some r when
the loop exits with session_cookies assignment r: some driverCookies after a
successful OTP entry, none when the 10-minute limit is exceeded and the
method returns without assigning. -/
def auto_login_loop (poll : Nat → Option String) (elapsedSeconds : Nat → Nat)
    (driverCookies : Cookies) : Nat → Nat → Option (Option Cookies)
  | _, 0 => none
  | k, fuel + 1 =>
    match poll k with
    | some _ => some (some driverCookies)
    | none =>
      if OTP_WAIT_LIMIT_SECONDS < elapsedSeconds k then
        some none
      else
        auto_login_loop poll elapsedSeconds driverCookies (k + 1) fuel

/-- handle(): whether use_api is invoked. auto_login runs only when the loaded
cookies are falsy; loginOutcome is its session_cookies assignment (none =
timed out, cookies left unchanged); then `if self.session_cookies:
self.use_api()`. Output is written only inside use_api, so a false result
means the run ends with no output. -/
def handleDispatchInvoked (initialCookies : Option Cookies)
    (loginOutcome : Option Cookies) : Bool :=
  let afterLogin :=
    if cookiesTruthy initialCookies then
      initialCookies
    else
      match loginOutcome with
      | some c => some c
      | none => initialCookies
  cookiesTruthy afterLogin

/-! ### Closed forms used to state loop properties -/

/-- The responses with a present payload among a consumed sequence, in
consumption order: the value of all_responses after the loop. -/
def successesIn (results : List CallResult) : List CallResult :=
  results.filter (fun r => !r.response.isNone)

/-- The usernames of the absent-payload responses among a consumed sequence, in
consumption order: the value of self.no_response_accounts after the loop. -/
def failureUsersIn (results : List CallResult) : List String :=
  (results.filter (fun r => r.response.isNone)).map CallResult.username

/-- Closed form of the checkpoint calls the completion loop makes: one call per
consumed result after which the accumulator length is divisible by
SAVE_INTERVAL, each receiving the accumulator at that point. -/
def expectedSaves (results : List CallResult) : List (List CallResult) :=
  (List.range results.length).filterMap (fun k =>
    let acc := successesIn (results.take (k + 1))
    if acc.length % SAVE_INTERVAL = 0 then some acc else none)

/-! ## Theorems -/

/-- C3: for every item and every behaviour of the remote endpoint (arbitrary
per-attempt status codes, bodies, and transport errors), process_account
returns a CallResult value: either the item with the body of the first
successful attempt, or the item with the absent payload once every attempt in
the MAX_RETRIES window has failed. Being a total function of the outcome
sequence, every endpoint behaviour yields a value — the embedding has no other
channel, matching the code where all request errors are caught inside the
loop. -/
theorem process_account_total (user : String) (attempts : Nat → AttemptOutcome) :
    (∃ body, process_account user attempts = ⟨user, some body⟩ ∧
      ∃ j, j < MAX_RETRIES ∧ attemptResult (attempts j) = some body ∧
        ∀ i, i < j → attemptResult (attempts i) = none) ∨
    (process_account user attempts = ⟨user, none⟩ ∧
      ∀ j, j < MAX_RETRIES → attemptResult (attempts j) = none) := by
  rcases processAccountFrom_spec user attempts MAX_RETRIES 0 with
    ⟨hall, heq⟩ | ⟨j, hj, body, hsucc, hbefore, heq⟩
  · right
    refine ⟨?_, fun j hj => by simpa using hall j hj⟩
    simp [process_account, heq]
  · left
    refine ⟨body, ?_, j, hj, by simpa using hsucc, fun i hi => by simpa using hbefore i hi⟩
    simp [process_account, heq]

/-- C5 counterexample: a checkpoint file that is present but not parseable as
JSON makes load_progress raise (json.load has no surrounding try/except), so
load() does not return the empty sequence on corrupt content as claimed. -/
theorem load_progress_corrupt_error :
    load_progress (ProgressFileState.present none) = Except.error () := rfl

/-- C5 amended: load_progress returns the stored sequence when the file is
present with valid content and the empty sequence when the file is absent, but
a corrupt (unparseable) file raises the JSON decode error instead of yielding
empty. -/
theorem load_progress_cases :
    load_progress ProgressFileState.absent = Except.ok [] ∧
    (∀ data, load_progress (ProgressFileState.present (some data)) = Except.ok data) ∧
    load_progress (ProgressFileState.present none) = Except.error () :=
  ⟨rfl, fun _ => rfl, rfl⟩

/-- C8: save_progress persists exactly the most recent 100 entries of the
success list (all of it when shorter) and writing is an idempotent pure
overwrite: a second identical checkpoint leaves the file content unchanged,
with no appending. -/
theorem save_progress_tail_idempotent (S : List CallResult)
    (previousFile : Option (List CallResult)) :
    writeProgressFile (save_progress S)
        (writeProgressFile (save_progress S) previousFile) =
      writeProgressFile (save_progress S) previousFile ∧
    writeProgressFile (save_progress S) previousFile = some (save_progress S) ∧
    (save_progress S).length = min 100 S.length ∧
    S.take (S.length - 100) ++ save_progress S = S := by
  refine ⟨rfl, rfl, ?_, ?_⟩
  · simp only [save_progress, List.length_drop]
    omega
  · exact List.take_append_drop _ S

/-- Mapping process_account over a user list and projecting usernames is the
identity: each submitted identifier comes back on its own result. -/
theorem map_username_map_process (l : List String)
    (f : String → Nat → AttemptOutcome) :
    (l.map (fun u => process_account u (f u))).map CallResult.username = l := by
  rw [List.map_map]
  have h : ∀ u ∈ l, (CallResult.username ∘ fun u => process_account u (f u)) u = id u := by
    intro u _
    simp only [Function.comp_apply, id_eq]
    exact processAccountFrom_username u (f u) MAX_RETRIES 0
  rw [List.map_congr_left h, List.map_id]

/-- C10: identifier preservation — every CallResult carries the submitted item
as its username: process_account copies the input into the result, any
completion-order result list of the batch runner has usernames forming a
permutation of the batch, and the retry pass maps failed users to results with
the same usernames positionally. -/
theorem username_preserved (user : String) (attempts : Nat → AttemptOutcome)
    (batch failed : List String) (net retryNet : String → Nat → AttemptOutcome)
    (completed : List CallResult)
    (hperm : completed.Perm (process_batch_external batch net)) :
    (process_account user attempts).username = user ∧
    (completed.map CallResult.username).Perm batch ∧
    (retry_no_response_accounts failed retryNet).map CallResult.username = failed := by
  refine ⟨processAccountFrom_username user attempts MAX_RETRIES 0, ?_,
    map_username_map_process failed retryNet⟩
  have h1 := hperm.map CallResult.username
  rw [process_batch_external, map_username_map_process batch net] at h1
  exact h1

/-- C10 witness: the batch runner result for a two-item batch, in its identity
completion order, carries exactly the submitted usernames. -/
theorem username_preserved_witness :
    (process_batch_external ["a", "b"] (fun _ _ => AttemptOutcome.transportError)).Perm
      (process_batch_external ["a", "b"] (fun _ _ => AttemptOutcome.transportError)) ∧
    ((process_account "x" (fun _ => AttemptOutcome.transportError)).username = "x" ∧
      ((process_batch_external ["a", "b"] (fun _ _ => AttemptOutcome.transportError)).map
          CallResult.username).Perm ["a", "b"] ∧
      (retry_no_response_accounts ["c"] (fun _ _ => AttemptOutcome.transportError)).map
          CallResult.username = ["c"]) :=
  ⟨List.Perm.refl _,
    username_preserved "x" (fun _ => AttemptOutcome.transportError) ["a", "b"] ["c"]
      (fun _ _ => AttemptOutcome.transportError) (fun _ _ => AttemptOutcome.transportError)
      _ (List.Perm.refl _)⟩

/-! ### Batching lemmas (C7) -/

theorem batchesWith_nil (B : Nat) : batchesWith B ([] : List α) = [] := by
  unfold batchesWith
  have h : ((List.length ([] : List α)) + B - 1) / B = 0 := by
    cases B with
    | zero => simp
    | succ b =>
      simp only [List.length_nil, Nat.zero_add]
      exact Nat.div_eq_of_lt (by omega)
  rw [h]
  simp

/-- Unfolding of the slicing comprehension: for a non-empty list the partition
is the first B-slice followed by the partition of the rest. -/
theorem batchesWith_cons (B : Nat) (hB : 0 < B) (l : List α) (hl : l ≠ []) :
    batchesWith B l = l.take B :: batchesWith B (l.drop B) := by
  have hlen : 0 < l.length := List.length_pos.mpr hl
  have hcount : (l.length + B - 1) / B = ((l.drop B).length + B - 1) / B + 1 := by
    rw [List.length_drop]
    have h1 : l.length + B - 1 = (l.length - 1) + B := by omega
    rw [h1, Nat.add_div_right _ hB]
    rcases Nat.le_total l.length B with h | h
    · have h2 : l.length - B = 0 := by omega
      rw [h2]
      have h3 : (l.length - 1) / B = 0 := Nat.div_eq_of_lt (by omega)
      have h4 : (0 + B - 1) / B = 0 := Nat.div_eq_of_lt (by omega)
      rw [h3, h4]
    · have h2 : l.length - B + B - 1 = l.length - 1 := by omega
      rw [h2]
  unfold batchesWith
  rw [hcount, List.range'_succ]
  simp only [List.map_cons, List.drop_zero, Nat.zero_add]
  congr 1
  have h5 := List.map_add_range' B 0 (((l.drop B).length + B - 1) / B) B
  rw [Nat.add_zero] at h5
  rw [← h5, List.map_map]
  apply List.map_congr_left
  intro i _
  simp only [Function.comp_apply, List.length_drop]
  rw [List.drop_drop, Nat.add_comm]

theorem batchesWith_flatten (B : Nat) (hB : 0 < B) (l : List α) :
    (batchesWith B l).flatten = l := by
  have key : ∀ n (l : List α), l.length ≤ n → (batchesWith B l).flatten = l := by
    intro n
    induction n with
    | zero =>
      intro l hl
      rw [List.length_eq_zero.mp (Nat.le_zero.mp hl), batchesWith_nil]
      rfl
    | succ n ih =>
      intro l hl
      by_cases hnil : l = []
      · rw [hnil, batchesWith_nil]; rfl
      · have hpos : 0 < l.length := List.length_pos.mpr hnil
        rw [batchesWith_cons B hB l hnil, List.flatten_cons,
          ih (l.drop B) (by rw [List.length_drop]; omega)]
        exact List.take_append_drop B l
  exact key l.length l (Nat.le_refl _)

/-- Every batch is one of the B-slices: bounded by B and non-empty. -/
theorem batchesWith_mem_size (B : Nat) (hB : 0 < B) (l : List α) :
    ∀ b ∈ batchesWith B l, b.length ≤ B ∧ b ≠ [] := by
  intro b hb
  unfold batchesWith at hb
  rcases List.mem_map.mp hb with ⟨i, hi, rfl⟩
  rcases List.mem_range'.mp hi with ⟨j, hj, rfl⟩
  constructor
  · exact List.length_take_le B _
  · -- the slice starts inside the list: B * j < l.length
    have hlt : B * j < l.length := by
      by_contra hcon
      push_neg at hcon
      have h2 : (l.length + B - 1) / B < j + 1 := by
        refine (Nat.div_lt_iff_lt_mul hB).mpr ?_
        have : (j + 1) * B = j * B + B := Nat.succ_mul j B
        rw [this, Nat.mul_comm j B]
        omega
      omega
    intro hemp
    have h3 : (l.drop (0 + B * j)).length = 0 := by
      have := congrArg List.length hemp
      simp only [List.length_take, List.length_nil] at this
      omega
    rw [List.length_drop] at h3
    omega

/-- Every batch except possibly the last has length exactly B. -/
theorem batchesWith_dropLast_size (B : Nat) (hB : 0 < B) (l : List α) :
    ∀ b ∈ (batchesWith B l).dropLast, b.length = B := by
  have key : ∀ n (l : List α), l.length ≤ n →
      ∀ b ∈ (batchesWith B l).dropLast, b.length = B := by
    intro n
    induction n with
    | zero =>
      intro l hl b hb
      rw [List.length_eq_zero.mp (Nat.le_zero.mp hl), batchesWith_nil] at hb
      simp at hb
    | succ n ih =>
      intro l hl b hb
      by_cases hnil : l = []
      · rw [hnil, batchesWith_nil] at hb
        simp at hb
      · have hpos : 0 < l.length := List.length_pos.mpr hnil
        rw [batchesWith_cons B hB l hnil] at hb
        by_cases hrest : l.drop B = []
        · rw [hrest, batchesWith_nil] at hb
          simp at hb
        · have hcons := batchesWith_cons B hB (l.drop B) hrest
          have hne : batchesWith B (l.drop B) ≠ [] := by
            rw [hcons]; exact List.cons_ne_nil _ _
          rw [List.dropLast_cons_of_ne_nil hne] at hb
          rcases List.mem_cons.mp hb with rfl | hb
          · -- the head slice is full because more than B elements remain
            have hgt : B < l.length := by
              have := List.length_pos.mpr hrest
              rw [List.length_drop] at this
              omega
            simp [List.length_take]
            omega
          · exact ih (l.drop B) (by rw [List.length_drop]; omega) b hb
  exact key l.length l (Nat.le_refl _)

/-- C7: for every work list W and batch size B > 0, the partition computed by
the slicing comprehension of use_api is a contiguous chunking — every batch
has size at most B and is non-empty, every batch except possibly the last has
size exactly B — and concatenating the batches recovers W itself, so every
item of W occurs in the batches exactly as often as in W. -/
theorem batches_partition [DecidableEq α] (W : List α) (B : Nat) (hB : 0 < B) :
    (batchesWith B W).flatten = W ∧
    (∀ b ∈ (batchesWith B W).dropLast, b.length = B) ∧
    (∀ b ∈ batchesWith B W, b.length ≤ B ∧ b ≠ []) ∧
    (∀ a : α, ((batchesWith B W).flatten).count a = W.count a) := by
  refine ⟨batchesWith_flatten B hB W, batchesWith_dropLast_size B hB W,
    batchesWith_mem_size B hB W, fun a => ?_⟩
  rw [batchesWith_flatten B hB W]

/-- C7 witness: the partition of a three-element list at batch size two. -/
theorem batches_partition_witness :
    (0 : Nat) < 2 ∧
    ((batchesWith 2 ["a", "b", "c"]).flatten = ["a", "b", "c"] ∧
      (∀ b ∈ (batchesWith 2 ["a", "b", "c"]).dropLast, b.length = 2) ∧
      (∀ b ∈ batchesWith 2 ["a", "b", "c"], b.length ≤ 2 ∧ b ≠ []) ∧
      (∀ a : String, ((batchesWith 2 ["a", "b", "c"]).flatten).count a =
        (["a", "b", "c"] : List String).count a)) :=
  ⟨by decide, batches_partition ["a", "b", "c"] 2 (by decide)⟩

/-! ### Completion-loop lemmas (C1, C2, C6) -/

theorem successesIn_append_singleton (rs : List CallResult) (r : CallResult) :
    successesIn (rs ++ [r]) =
      successesIn rs ++ (if r.response.isNone then [] else [r]) := by
  cases hro : r.response <;>
    simp [successesIn, List.filter_append, hro]

theorem failureUsersIn_append_singleton (rs : List CallResult) (r : CallResult) :
    failureUsersIn (rs ++ [r]) =
      failureUsersIn rs ++ (if r.response.isNone then [r.username] else []) := by
  cases hro : r.response <;>
    simp [failureUsersIn, List.filter_append, hro]

theorem expectedSaves_append_singleton (rs : List CallResult) (r : CallResult) :
    expectedSaves (rs ++ [r]) =
      expectedSaves rs ++
        (if (successesIn (rs ++ [r])).length % SAVE_INTERVAL = 0
          then [successesIn (rs ++ [r])] else []) := by
  unfold expectedSaves
  have hlen : (rs ++ [r]).length = rs.length + 1 := by simp
  rw [hlen, List.range_succ, List.filterMap_append]
  congr 1
  · apply List.filterMap_congr
    intro k hk
    have hk2 : k + 1 ≤ rs.length := by
      have := List.mem_range.mp hk
      omega
    rw [List.take_append_of_le_length hk2]
  · have htake : (rs ++ [r]).take (rs.length + 1) = rs ++ [r] := by
      apply List.take_of_length_le
      simp
    simp only [List.filterMap_cons, List.filterMap_nil, htake]
    by_cases hc : (successesIn (rs ++ [r])).length % SAVE_INTERVAL = 0 <;>
      simp [hc]

/-- Closed-form characterisation of the dispatcher completion loop: after
consuming a result sequence, all_responses holds exactly the present-payload
results in order, no_response_accounts exactly the usernames of the
absent-payload results in order, and the checkpoint calls are those after
which the accumulator length is divisible by SAVE_INTERVAL. -/
theorem completionLoop_spec (results : List CallResult) :
    (completionLoop results).all_responses = successesIn results ∧
    (completionLoop results).no_response_accounts = failureUsersIn results ∧
    (completionLoop results).saves = expectedSaves results := by
  induction results using List.reverseRecOn with
  | nil => exact ⟨rfl, rfl, rfl⟩
  | append_singleton rs r ih =>
    obtain ⟨h1, h2, h3⟩ := ih
    have hstep : completionLoop (rs ++ [r]) = consumeOne (completionLoop rs) r := by
      simp [completionLoop, List.foldl_append]
    rw [hstep, consumeOne, successesIn_append_singleton,
      failureUsersIn_append_singleton, expectedSaves_append_singleton,
      successesIn_append_singleton]
    by_cases hr : r.response.isNone
    · simp only [hr, if_true, h1, h2, h3, List.append_nil]
      by_cases hc : (successesIn rs).length % SAVE_INTERVAL = 0 <;>
        simp [hc]
    · simp only [hr, if_false, h1, h2, h3, List.append_nil]
      by_cases hc : ((successesIn rs).length + 1) % SAVE_INTERVAL = 0 <;>
        simp [hc]

/-- C2 counterexample: consuming a single failed result (absent payload) as the
first consumed result triggers a checkpoint — all_responses is empty and
0 % SAVE_INTERVAL == 0 — with the empty accumulator as argument, even though
no success was ever consumed, refuting that a failed result never triggers a
checkpoint by itself. -/
theorem checkpoint_on_failure :
    (completionLoop [{ username := "b", response := none }]).saves = [[]] ∧
    successesIn [{ username := "b", response := none }] = [] :=
  ⟨rfl, rfl⟩

/-- C2 amended: the completion loop triggers a checkpoint after consuming any
result — success or failure alike — exactly when the success
count of the accumulator at that moment is divisible by SAVE_INTERVAL (zero included), and each
checkpoint receives the accumulator at that moment (save_progress persists its
last-100 tail); in particular every saved snapshot has length divisible by
SAVE_INTERVAL. -/
theorem checkpoint_trigger (results : List CallResult) :
    (completionLoop results).saves = expectedSaves results ∧
    (completionLoop results).all_responses = successesIn results ∧
    ∀ s ∈ (completionLoop results).saves, s.length % SAVE_INTERVAL = 0 := by
  obtain ⟨h1, _, h3⟩ := completionLoop_spec results
  refine ⟨h3, h1, ?_⟩
  intro s hs
  rw [h3] at hs
  unfold expectedSaves at hs
  rcases List.mem_filterMap.mp hs with ⟨k, _, hk⟩
  by_cases hc : (successesIn (results.take (k + 1))).length % SAVE_INTERVAL = 0
  · simp only [hc, if_true] at hk
    cases hk
    exact hc
  · simp [hc] at hk

/-- The retry guard of use_api makes no observable difference to the
accumulator: skipping the retry call on an empty failed set equals extending
with the (empty) retry result list. -/
theorem finalAccumulator_eq (consumed : List CallResult)
    (retryNet : String → Nat → AttemptOutcome) :
    finalAccumulator consumed retryNet =
      (completionLoop consumed).all_responses ++
        retry_no_response_accounts (completionLoop consumed).no_response_accounts
          retryNet := by
  unfold finalAccumulator
  by_cases h : (completionLoop consumed).no_response_accounts.isEmpty
  · rw [if_pos h, List.isEmpty_iff.mp h]
    simp [retry_no_response_accounts]
  · rw [if_neg h]

/-- C1 counterexample: for an item whose call fails on every attempt of both
passes, the retry-pass call still returns the absent payload, yet the item is
present in the accumulator handed to output serialization (with response None)
— it is not excluded from it as claimed; only the serialization filter drops
it from the output rows. -/
theorem retry_failure_in_accumulator :
    (process_account "b" (fun _ => AttemptOutcome.transportError)).response = none ∧
    finalAccumulator [process_account "b" (fun _ => AttemptOutcome.transportError)]
        (fun _ _ => AttemptOutcome.transportError) =
      [{ username := "b", response := none }] :=
  ⟨rfl, rfl⟩

/-- C1 amended: every WorkItem that enters the Dispatcher corresponds to
exactly one entry of the final accumulator — the usernames of the accumulator are a
permutation of the work list — but items still absent after the retry pass
remain in the accumulator with response None rather than being excluded from
it; the exclusion happens at output serialization, where every emitted row
stems from an entry with a present payload. -/
theorem final_accumulator_partition (user_list : List String)
    (net retryNet : String → Nat → AttemptOutcome) (consumed : List CallResult)
    (hperm : consumed.Perm (process_batch_external user_list net)) :
    ((finalAccumulator consumed retryNet).map CallResult.username).Perm user_list ∧
    (∀ p ∈ outputRows (finalAccumulator consumed retryNet),
      ∃ r ∈ finalAccumulator consumed retryNet,
        r.username = p.1 ∧ r.response ≠ none) := by
  constructor
  · rw [finalAccumulator_eq, List.map_append]
    obtain ⟨h1, h2, _⟩ := completionLoop_spec consumed
    rw [h1, h2, retry_no_response_accounts, map_username_map_process]
    have hsplit : (successesIn consumed ++
        consumed.filter (fun r => r.response.isNone)).Perm consumed := by
      have hcongr : consumed.filter (fun r => r.response.isNone) =
          consumed.filter (fun r => !(!r.response.isNone)) := by
        apply List.filter_congr
        intro r _
        rw [Bool.not_not]
      rw [hcongr]
      exact List.filter_append_perm (fun r => !r.response.isNone) consumed
    have hperm2 : (successesIn consumed).map CallResult.username ++ failureUsersIn consumed =
        ((successesIn consumed ++ consumed.filter (fun r => r.response.isNone)).map
          CallResult.username) := by
      rw [List.map_append]
      rfl
    rw [hperm2]
    have h3 := (hsplit.map CallResult.username).trans (hperm.map CallResult.username)
    rw [process_batch_external, map_username_map_process] at h3
    exact h3
  · intro p hp
    unfold outputRows at hp
    rcases List.mem_flatMap.mp hp with ⟨r, hr, hpr⟩
    rcases List.mem_filter.mp hr with ⟨hrmem, hrtruthy⟩
    refine ⟨r, hrmem, ?_, ?_⟩
    · rcases List.mem_map.mp hpr with ⟨resp, _, rfl⟩
      rfl
    · intro hnone
      rw [hnone] at hrtruthy
      exact Bool.noConfusion hrtruthy

/-- C1 witness: a single-item work list processed in identity completion
order. -/
theorem final_accumulator_partition_witness :
    (process_batch_external ["a"]
        (fun _ _ => AttemptOutcome.response 200 (some ["ok"]))).Perm
      (process_batch_external ["a"]
        (fun _ _ => AttemptOutcome.response 200 (some ["ok"]))) ∧
    (((finalAccumulator
          (process_batch_external ["a"]
            (fun _ _ => AttemptOutcome.response 200 (some ["ok"])))
          (fun _ _ => AttemptOutcome.transportError)).map
        CallResult.username).Perm ["a"] ∧
      (∀ p ∈ outputRows (finalAccumulator
            (process_batch_external ["a"]
              (fun _ _ => AttemptOutcome.response 200 (some ["ok"])))
            (fun _ _ => AttemptOutcome.transportError)),
        ∃ r ∈ finalAccumulator
            (process_batch_external ["a"]
              (fun _ _ => AttemptOutcome.response 200 (some ["ok"])))
            (fun _ _ => AttemptOutcome.transportError),
          r.username = p.1 ∧ r.response ≠ none)) :=
  ⟨List.Perm.refl _,
    final_accumulator_partition ["a"]
      (fun _ _ => AttemptOutcome.response 200 (some ["ok"]))
      (fun _ _ => AttemptOutcome.transportError) _ (List.Perm.refl _)⟩

/-! ### Resume (C4) -/

/-- C4: resume — when the loaded checkpoint is non-empty and the username of its last entry matches the work list at position i (the first exact match, as
returned by user_list.index), use_api truncates the work list to exactly the
items at positions strictly greater than i; with an empty checkpoint the full
list is kept. -/
theorem resume_truncation (user_list : List String)
    (progress_data : List CallResult) (last : CallResult) (i : Nat)
    (hlast : progress_data.getLast? = some last)
    (hidx : user_list.indexOf? last.username = some i) :
    resumeTruncate user_list progress_data = some (user_list.drop (i + 1)) ∧
    i < user_list.length ∧
    user_list[i]? = some last.username ∧
    (∀ j, j < i → user_list[j]? ≠ some last.username) ∧
    (∀ j, (user_list.drop (i + 1))[j]? = user_list[i + 1 + j]?) ∧
    resumeTruncate user_list [] = some user_list := by
  have hidx2 : user_list.findIdx? (· == last.username) = some i := hidx
  rcases List.findIdx?_eq_some_iff_getElem.mp hidx2 with ⟨hlt, hbeq, hne⟩
  refine ⟨?_, hlt, ?_, ?_, fun j => List.getElem?_drop user_list (i + 1) j, rfl⟩
  · simp only [resumeTruncate, hlast, hidx]
  · rw [List.getElem?_eq_getElem hlt, eq_of_beq hbeq]
  · intro j hj heq
    have hjlt : j < user_list.length := Nat.lt_trans hj hlt
    rw [List.getElem?_eq_getElem hjlt] at heq
    have : user_list[j] = last.username := Option.some.inj heq
    exact hne j hj (beq_of_eq this)

/-- C4 witness: checkpoint ending in user a, found at position 1 of the work
list; the residue is the single item at position 2. -/
theorem resume_truncation_witness :
    ([{ username := "a", response := none }] : List CallResult).getLast? =
      some { username := "a", response := none } ∧
    (["z", "a", "b"] : List String).indexOf? "a" = some 1 ∧
    (resumeTruncate ["z", "a", "b"] [{ username := "a", response := none }] =
        some ((["z", "a", "b"] : List String).drop 2) ∧
      1 < (["z", "a", "b"] : List String).length ∧
      (["z", "a", "b"] : List String)[1]? = some "a" ∧
      (∀ j, j < 1 → (["z", "a", "b"] : List String)[j]? ≠ some "a") ∧
      (∀ j, ((["z", "a", "b"] : List String).drop 2)[j]? =
        (["z", "a", "b"] : List String)[2 + j]?) ∧
      resumeTruncate ["z", "a", "b"] [] = some ["z", "a", "b"]) :=
  ⟨rfl, by decide,
    resume_truncation ["z", "a", "b"] [{ username := "a", response := none }]
      { username := "a", response := none } 1 rfl (by decide)⟩

/-! ### Always-failing item (C6) -/

/-- C6: for an item whose remote call fails on every attempt, process_account
performs exactly MAX_RETRIES attempts and returns the absent payload; once the
dispatcher has consumed that result, the username of the item is in
no_response_accounts, the retry guard fires (the set is non-empty), and the
retry pass — whatever the network does there — is invoked with a result for
exactly that item present. -/
theorem always_fail_exhaustion (user : String) (attempts : Nat → AttemptOutcome)
    (consumed : List CallResult)
    (hfail : ∀ k, attemptResult (attempts k) = none)
    (hmem : process_account user attempts ∈ consumed) :
    attemptsMade user attempts = MAX_RETRIES ∧
    (process_account user attempts).response = none ∧
    user ∈ (completionLoop consumed).no_response_accounts ∧
    (completionLoop consumed).no_response_accounts ≠ [] ∧
    ∀ retryNet, ∃ r ∈ retry_no_response_accounts
        (completionLoop consumed).no_response_accounts retryNet,
      r.username = user := by
  rcases processAccountFrom_spec user attempts MAX_RETRIES 0 with
    ⟨_, heq⟩ | ⟨j, _, body, hsucc, _, _⟩
  · have hpa : process_account user attempts = ⟨user, none⟩ := by
      simp [process_account, heq]
    obtain ⟨_, h2, _⟩ := completionLoop_spec consumed
    have humem : user ∈ (completionLoop consumed).no_response_accounts := by
      rw [h2]
      unfold failureUsersIn
      refine List.mem_map.mpr ⟨⟨user, none⟩, ?_, rfl⟩
      exact List.mem_filter.mpr ⟨hpa ▸ hmem, rfl⟩
    refine ⟨by simp [attemptsMade, heq], by rw [hpa], humem, ?_, ?_⟩
    · intro hnil
      rw [hnil] at humem
      exact List.not_mem_nil user humem
    · intro retryNet
      refine ⟨process_account user (retryNet user), ?_,
        processAccountFrom_username user (retryNet user) MAX_RETRIES 0⟩
      unfold retry_no_response_accounts
      exact List.mem_map.mpr ⟨user, humem, rfl⟩
  · rw [hfail (0 + j)] at hsucc
    exact Option.noConfusion hsucc

/-- C6 witness: a single always-failing item fully consumed by the loop. -/
theorem always_fail_exhaustion_witness :
    (∀ k : Nat, attemptResult ((fun _ : Nat => AttemptOutcome.transportError) k) = none) ∧
    process_account "u" (fun _ => AttemptOutcome.transportError) ∈
      [process_account "u" (fun _ => AttemptOutcome.transportError)] ∧
    (attemptsMade "u" (fun _ => AttemptOutcome.transportError) = MAX_RETRIES ∧
      (process_account "u" (fun _ => AttemptOutcome.transportError)).response = none ∧
      "u" ∈ (completionLoop
        [process_account "u" (fun _ => AttemptOutcome.transportError)]).no_response_accounts ∧
      (completionLoop
        [process_account "u" (fun _ => AttemptOutcome.transportError)]).no_response_accounts ≠ [] ∧
      ∀ retryNet, ∃ r ∈ retry_no_response_accounts
          (completionLoop
            [process_account "u" (fun _ => AttemptOutcome.transportError)]).no_response_accounts
          retryNet,
        r.username = "u") :=
  ⟨fun _ => rfl, List.mem_singleton.mpr rfl,
    always_fail_exhaustion "u" (fun _ => AttemptOutcome.transportError)
      [process_account "u" (fun _ => AttemptOutcome.transportError)]
      (fun _ => rfl) (List.mem_singleton.mpr rfl)⟩

/-! ### OTP timeout (C9) -/

/-- If OTP polling always returns none, the wait loop exits with the
no-credential outcome as soon as some iteration within the fuel bound finds
the 10-minute limit exceeded. -/
theorem auto_login_loop_times_out (poll : Nat → Option String)
    (elapsedSeconds : Nat → Nat) (driverCookies : Cookies)
    (hpoll : ∀ k, poll k = none) :
    ∀ fuel k, (∃ m, m < fuel ∧ OTP_WAIT_LIMIT_SECONDS < elapsedSeconds (k + m)) →
      auto_login_loop poll elapsedSeconds driverCookies k fuel = some none := by
  intro fuel
  induction fuel with
  | zero =>
    intro k hk
    rcases hk with ⟨m, hm, _⟩
    omega
  | succ fuel ih =>
    intro k hk
    rcases hk with ⟨m, hm, hgt⟩
    simp only [auto_login_loop, hpoll k]
    by_cases hnow : OTP_WAIT_LIMIT_SECONDS < elapsedSeconds k
    · rw [if_pos hnow]
    · rw [if_neg hnow]
      apply ih
      have hm0 : m ≠ 0 := by
        rintro rfl
        rw [Nat.add_zero] at hgt
        exact hnow hgt
      refine ⟨m - 1, by omega, ?_⟩
      have harr : k + 1 + (m - 1) = k + m := by omega
      rw [harr]
      exact hgt

/-- C9: when the OTP poll always returns none and the wait exceeds the
configured 10-minute limit, the login loop terminates with no credential
assigned, and — the loaded cookies being absent or falsy — handle does not
invoke use_api, so the run ends without dispatch and (output being written
only inside use_api) without output. -/
theorem otp_timeout_no_dispatch (poll : Nat → Option String)
    (elapsedSeconds : Nat → Nat) (driverCookies : Cookies)
    (initialCookies : Option Cookies) (K : Nat)
    (hpoll : ∀ k, poll k = none)
    (htime : OTP_WAIT_LIMIT_SECONDS < elapsedSeconds K)
    (hinit : cookiesTruthy initialCookies = false) :
    (∃ fuel, auto_login_loop poll elapsedSeconds driverCookies 0 fuel = some none) ∧
    handleDispatchInvoked initialCookies none = false := by
  constructor
  · refine ⟨K + 1,
      auto_login_loop_times_out poll elapsedSeconds driverCookies hpoll (K + 1) 0 ?_⟩
    exact ⟨K, by omega, by simpa using htime⟩
  · simp [handleDispatchInvoked, hinit]

/-- C9 witness: polling that never yields a code, a clock already past the
limit, and no loaded cookies. -/
theorem otp_timeout_no_dispatch_witness :
    (∀ k, (fun _ : Nat => (none : Option String)) k = none) ∧
    OTP_WAIT_LIMIT_SECONDS < (fun _ : Nat => 601) 0 ∧
    cookiesTruthy none = false ∧
    ((∃ fuel, auto_login_loop (fun _ => none) (fun _ => 601) [] 0 fuel = some none) ∧
      handleDispatchInvoked none none = false) :=
  ⟨fun _ => rfl, by decide, rfl,
    otp_timeout_no_dispatch (fun _ => none) (fun _ => 601) [] none 0
      (fun _ => rfl) (by decide) rfl⟩

end StartWorker
